import Mathlib

/-!
Shallow embedding of the projection engine of `src/payout.py` (the `simulate`
function and the module-level constants it reads), together with proofs of the
specification's claims about it.

Numeric values are modelled as exact rationals (`ℚ`); years are integers
(Python `int`).  A Python `dict[int, int]` / `dict[int, float]` is an
association list with distinct keys.  The pandas DataFrame returned by
`simulate` is a list of `Row` records, one per acquisition year, in ascending
year order (`sort_index()`).
-/

namespace Payout

/-- One row of the DataFrame returned by `simulate` (src/payout.py):
the `Year` index value plus the ten computed columns, in the order the
source assigns them. -/
structure Row where
  year : Int
  new_users : ℚ
  one_time_rev : ℚ
  cum_users : ℚ
  arr : ℚ
  value_added : ℚ
  vested_pct : ℚ
  equity_value : ℚ
  cum_val_added : ℚ
  market_cap_usd : ℚ
  share_price_usd : ℚ
  deriving DecidableEq, Repr

/-- `MARKET_CAP_USD = 20.49 * 1_000_000` (src/payout.py line 15). -/
def MARKET_CAP_USD : ℚ := 20490000

/-- Python floor division `a // b` on exact values: the floor of the true
quotient, as a number. -/
def floorDiv (a b : ℚ) : ℚ := ((⌊a / b⌋ : ℤ) : ℚ)

/-- `SHARES_OUT = MARKET_CAP_USD // price` (src/payout.py line 16); `price` is
the externally fetched last-trade price, passed in explicitly here. -/
def SHARES_OUT (price : ℚ) : ℚ := floorDiv MARKET_CAP_USD price

/-- Comparison of acquisition entries by their year key: the sort order of
`.set_index(Year).sort_index()` (src/payout.py lines 26-27). -/
def yearLE (p q : Int × ℚ) : Prop := p.1 ≤ q.1

instance : DecidableRel yearLE := fun p q => inferInstanceAs (Decidable (p.1 ≤ q.1))

instance : IsTotal (Int × ℚ) yearLE := ⟨fun p q => le_total p.1 q.1⟩

instance : IsTrans (Int × ℚ) yearLE := ⟨fun _ _ _ h h' => le_trans h h'⟩

/-- The row order of the DataFrame: acquisition entries sorted ascending by
year (src/payout.py lines 21-28; a stable sort on the index). -/
def sortByYear (acquisitions : List (Int × ℚ)) : List (Int × ℚ) :=
  List.insertionSort yearLE acquisitions

/-- The row of the table for year `y` with `n` new users, given the current
retention accumulator `active` (src/payout.py line 37) and the running prefix
sum `cumVal` of `value_added` (the `cumsum` of line 51).  Each field is the
corresponding column formula of src/payout.py lines 30-53. -/
def rowOf (price_monthly device_revenue valuation_multiple : ℚ)
    (vesting_dict : List (Int × ℚ)) (retain_rate price : ℚ)
    (active cumVal : ℚ) (y : Int) (n : ℚ) : Row :=
  let one_time_rev := n * device_revenue
  let cum_users := n + active * retain_rate
  let arr := cum_users * price_monthly * 12
  let value_added := arr * valuation_multiple + one_time_rev
  let vested_pct := (vesting_dict.lookup y).getD 0
  let equity_value := value_added * vested_pct
  let cum_val_added := cumVal + value_added
  let market_cap_usd := MARKET_CAP_USD + cum_val_added
  let share_price_usd := market_cap_usd / SHARES_OUT price
  ⟨y, n, one_time_rev, cum_users, arr, value_added, vested_pct, equity_value,
    cum_val_added, market_cap_usd, share_price_usd⟩

/-- The rows of the table, built in order over the sorted entries.  The two
accumulators thread the only sequential state of src/payout.py: `active`
(lines 33-39, updated to the row's `cum_users`) and the running sum of
`value_added` (line 51, updated to the row's `cum_val_added`); every other
column is a pointwise function of the row. -/
def simulateRows (price_monthly device_revenue valuation_multiple : ℚ)
    (vesting_dict : List (Int × ℚ)) (retain_rate price : ℚ) :
    ℚ → ℚ → List (Int × ℚ) → List Row
  | _, _, [] => []
  | active, cumVal, (y, n) :: rest =>
    let row := rowOf price_monthly device_revenue valuation_multiple vesting_dict
      retain_rate price active cumVal y n
    row :: simulateRows price_monthly device_revenue valuation_multiple vesting_dict
      retain_rate price row.cum_users row.cum_val_added rest

/-- `simulate` (src/payout.py lines 18-55): sort the acquisition mapping
ascending by year, then compute every column.  The retention accumulator
starts at 0 (line 33) and the `value_added` prefix sum at 0; `price` is the
module-level last-trade price that `SHARES_OUT` is derived from. -/
def simulate (acquisitions : List (Int × ℚ))
    (price_monthly device_revenue valuation_multiple : ℚ)
    (vesting_dict : List (Int × ℚ)) (retain_rate price : ℚ) : List Row :=
  simulateRows price_monthly device_revenue valuation_multiple vesting_dict
    retain_rate price 0 0 (sortByYear acquisitions)

section Lemmas

variable {pm dr vm : ℚ} {vest : List (Int × ℚ)} {r price : ℚ}

lemma simulateRows_cons (a c : ℚ) (y : Int) (n : ℚ) (rest : List (Int × ℚ)) :
    simulateRows pm dr vm vest r price a c ((y, n) :: rest)
      = rowOf pm dr vm vest r price a c y n
        :: simulateRows pm dr vm vest r price
            (rowOf pm dr vm vest r price a c y n).cum_users
            (rowOf pm dr vm vest r price a c y n).cum_val_added rest := rfl

lemma simulateRows_length (l : List (Int × ℚ)) :
    ∀ a c : ℚ, (simulateRows pm dr vm vest r price a c l).length = l.length := by
  induction l with
  | nil => intro a c; rfl
  | cons p rest ih =>
    intro a c
    obtain ⟨y, n⟩ := p
    rw [simulateRows_cons]
    simp [ih]

lemma simulateRows_map_year (l : List (Int × ℚ)) :
    ∀ a c : ℚ, (simulateRows pm dr vm vest r price a c l).map Row.year = l.map Prod.fst := by
  induction l with
  | nil => intro a c; rfl
  | cons p rest ih =>
    intro a c
    obtain ⟨y, n⟩ := p
    rw [simulateRows_cons]
    simp [ih, rowOf]

lemma simulateRows_map_new_users (l : List (Int × ℚ)) :
    ∀ a c : ℚ,
      (simulateRows pm dr vm vest r price a c l).map Row.new_users = l.map Prod.snd := by
  induction l with
  | nil => intro a c; rfl
  | cons p rest ih =>
    intro a c
    obtain ⟨y, n⟩ := p
    rw [simulateRows_cons]
    simp [ih, rowOf]

lemma simulateRows_get_cum_zero (l : List (Int × ℚ)) (a c : ℚ)
    (h : 0 < (simulateRows pm dr vm vest r price a c l).length) :
    ((simulateRows pm dr vm vest r price a c l).get ⟨0, h⟩).cum_users
      = ((simulateRows pm dr vm vest r price a c l).get ⟨0, h⟩).new_users + a * r := by
  cases l with
  | nil => simp [simulateRows] at h
  | cons p rest =>
    obtain ⟨y, n⟩ := p
    rfl

lemma simulateRows_get_cum_succ (l : List (Int × ℚ)) :
    ∀ (a c : ℚ) (i : ℕ) (h : i + 1 < (simulateRows pm dr vm vest r price a c l).length),
      ((simulateRows pm dr vm vest r price a c l).get ⟨i + 1, h⟩).cum_users
        = ((simulateRows pm dr vm vest r price a c l).get ⟨i + 1, h⟩).new_users
          + ((simulateRows pm dr vm vest r price a c l).get
              ⟨i, Nat.lt_of_succ_lt h⟩).cum_users * r := by
  induction l with
  | nil => intro a c i h; simp [simulateRows] at h
  | cons p rest ih =>
    obtain ⟨y, n⟩ := p
    intro a c i h
    cases i with
    | zero =>
      have h0 : 0 < (simulateRows pm dr vm vest r price
          (rowOf pm dr vm vest r price a c y n).cum_users
          (rowOf pm dr vm vest r price a c y n).cum_val_added rest).length := by
        have := Nat.lt_of_succ_lt_succ (h.trans_eq (by rw [simulateRows_cons]; rfl))
        simpa using this
      exact simulateRows_get_cum_zero rest
        (rowOf pm dr vm vest r price a c y n).cum_users
        (rowOf pm dr vm vest r price a c y n).cum_val_added h0
    | succ j =>
      have hj : j + 1 < (simulateRows pm dr vm vest r price
          (rowOf pm dr vm vest r price a c y n).cum_users
          (rowOf pm dr vm vest r price a c y n).cum_val_added rest).length := by
        have := Nat.lt_of_succ_lt_succ (h.trans_eq (by rw [simulateRows_cons]; rfl))
        simpa using this
      exact ih (rowOf pm dr vm vest r price a c y n).cum_users
        (rowOf pm dr vm vest r price a c y n).cum_val_added j hj

lemma simulateRows_get_cum_one (l : List (Int × ℚ)) :
    ∀ (a c : ℚ) (i : ℕ) (h : i < (simulateRows pm dr vm vest 1 price a c l).length),
      ((simulateRows pm dr vm vest 1 price a c l).get ⟨i, h⟩).cum_users
        = a + (((simulateRows pm dr vm vest 1 price a c l).map Row.new_users).take (i + 1)).sum := by
  induction l with
  | nil => intro a c i h; simp [simulateRows] at h
  | cons p rest ih =>
    obtain ⟨y, n⟩ := p
    intro a c i h
    cases i with
    | zero =>
      have e : ((simulateRows pm dr vm vest 1 price a c ((y, n) :: rest)).get ⟨0, h⟩).cum_users
          = n + a * 1 := rfl
      rw [e, simulateRows_cons]
      simp [rowOf]
      ring
    | succ j =>
      have hj : j < (simulateRows pm dr vm vest 1 price
          (rowOf pm dr vm vest 1 price a c y n).cum_users
          (rowOf pm dr vm vest 1 price a c y n).cum_val_added rest).length := by
        rw [simulateRows_length]
        rw [simulateRows_length] at h
        simp at h ⊢
        omega
      have e : ((simulateRows pm dr vm vest 1 price a c ((y, n) :: rest)).get
            ⟨j + 1, h⟩).cum_users
          = ((simulateRows pm dr vm vest 1 price
              (rowOf pm dr vm vest 1 price a c y n).cum_users
              (rowOf pm dr vm vest 1 price a c y n).cum_val_added rest).get
            ⟨j, hj⟩).cum_users := rfl
      rw [e, ih _ _ j hj, simulateRows_cons]
      simp [rowOf]
      ring

lemma simulateRows_get_cum_zero_retain (l : List (Int × ℚ)) :
    ∀ (a c : ℚ) (i : ℕ) (h : i < (simulateRows pm dr vm vest 0 price a c l).length),
      ((simulateRows pm dr vm vest 0 price a c l).get ⟨i, h⟩).cum_users
        = ((simulateRows pm dr vm vest 0 price a c l).get ⟨i, h⟩).new_users := by
  induction l with
  | nil => intro a c i h; simp [simulateRows] at h
  | cons p rest ih =>
    obtain ⟨y, n⟩ := p
    intro a c i h
    cases i with
    | zero =>
      show n + a * 0 = n
      ring
    | succ j =>
      have hj : j < (simulateRows pm dr vm vest 0 price
          (rowOf pm dr vm vest 0 price a c y n).cum_users
          (rowOf pm dr vm vest 0 price a c y n).cum_val_added rest).length := by
        rw [simulateRows_length]
        rw [simulateRows_length] at h
        simp at h ⊢
        omega
      exact ih (rowOf pm dr vm vest 0 price a c y n).cum_users
        (rowOf pm dr vm vest 0 price a c y n).cum_val_added j hj

lemma simulateRows_get_cum_val (l : List (Int × ℚ)) :
    ∀ (a c : ℚ) (i : ℕ) (h : i < (simulateRows pm dr vm vest r price a c l).length),
      ((simulateRows pm dr vm vest r price a c l).get ⟨i, h⟩).cum_val_added
        = c + (((simulateRows pm dr vm vest r price a c l).map Row.value_added).take (i + 1)).sum := by
  induction l with
  | nil => intro a c i h; simp [simulateRows] at h
  | cons p rest ih =>
    obtain ⟨y, n⟩ := p
    intro a c i h
    cases i with
    | zero =>
      have e : ((simulateRows pm dr vm vest r price a c ((y, n) :: rest)).get ⟨0, h⟩).cum_val_added
          = (rowOf pm dr vm vest r price a c y n).cum_val_added := rfl
      rw [e, simulateRows_cons]
      simp [rowOf]
    | succ j =>
      have hj : j < (simulateRows pm dr vm vest r price
          (rowOf pm dr vm vest r price a c y n).cum_users
          (rowOf pm dr vm vest r price a c y n).cum_val_added rest).length := by
        rw [simulateRows_length]
        rw [simulateRows_length] at h
        simp at h ⊢
        omega
      have e : ((simulateRows pm dr vm vest r price a c ((y, n) :: rest)).get
            ⟨j + 1, h⟩).cum_val_added
          = ((simulateRows pm dr vm vest r price
              (rowOf pm dr vm vest r price a c y n).cum_users
              (rowOf pm dr vm vest r price a c y n).cum_val_added rest).get
            ⟨j, hj⟩).cum_val_added := rfl
      rw [e, ih _ _ j hj, simulateRows_cons]
      simp [rowOf]
      ring

lemma simulateRows_mem (l : List (Int × ℚ)) :
    ∀ (a c : ℚ) (row : Row), row ∈ simulateRows pm dr vm vest r price a c l →
      row.market_cap_usd = MARKET_CAP_USD + row.cum_val_added
      ∧ row.share_price_usd = row.market_cap_usd / SHARES_OUT price
      ∧ row.vested_pct = (vest.lookup row.year).getD 0
      ∧ row.equity_value = row.value_added * row.vested_pct := by
  induction l with
  | nil => intro a c row hrow; simp [simulateRows] at hrow
  | cons p rest ih =>
    obtain ⟨y, n⟩ := p
    intro a c row hrow
    rw [simulateRows_cons, List.mem_cons] at hrow
    rcases hrow with heq | hmem
    · subst heq
      exact ⟨rfl, rfl, rfl, rfl⟩
    · exact ih _ _ row hmem

lemma simulateRows_cum_chain (l : List (Int × ℚ)) :
    ∀ a c : ℚ, 0 ≤ a → 1 ≤ r → (∀ p ∈ l, 0 ≤ p.2) →
      List.Chain (· ≤ ·) a ((simulateRows pm dr vm vest r price a c l).map Row.cum_users) := by
  induction l with
  | nil => intro a c _ _ _; simp [simulateRows]
  | cons p rest ih =>
    obtain ⟨y, n⟩ := p
    intro a c ha hr hnn
    have hn : 0 ≤ n := hnn (y, n) (List.mem_cons_self _ _)
    have har : a ≤ n + a * r := by nlinarith
    rw [simulateRows_cons, List.map_cons]
    refine List.Chain.cons ?_ ?_
    · exact har
    · have ha' : (0 : ℚ) ≤ (rowOf pm dr vm vest r price a c y n).cum_users := by
        show (0 : ℚ) ≤ n + a * r
        exact le_trans ha har
      exact ih (rowOf pm dr vm vest r price a c y n).cum_users
        (rowOf pm dr vm vest r price a c y n).cum_val_added ha' hr
        (fun q hq => hnn q (List.mem_cons_of_mem _ hq))

end Lemmas

/-- C1: for every non-empty acquisition schedule (with the dict invariant of
distinct year keys), the table returned by `simulate` is non-empty with exactly
one row per acquisition year (same length, years a duplicate-free permutation
of the schedule's keys), rows ordered ascending by year, and the `cum_users`
column satisfies `cum_users[i] = new_users[i] + retain_rate * cum_users[i-1]`
over the row sequence with the accumulator starting at 0 before the first row,
the retention factor applied exactly once per listed row (the recurrence is
over row positions, never over calendar gaps). -/
theorem claim_C1 (acq : List (Int × ℚ)) (pm dr vm : ℚ) (vest : List (Int × ℚ)) (r price : ℚ)
    (hne : acq ≠ []) (hnd : (acq.map Prod.fst).Nodup) :
    simulate acq pm dr vm vest r price ≠ []
    ∧ (simulate acq pm dr vm vest r price).length = acq.length
    ∧ ((simulate acq pm dr vm vest r price).map Row.year).Perm (acq.map Prod.fst)
    ∧ ((simulate acq pm dr vm vest r price).map Row.year).Nodup
    ∧ List.Sorted (· ≤ ·) ((simulate acq pm dr vm vest r price).map Row.year)
    ∧ (∀ h0 : 0 < (simulate acq pm dr vm vest r price).length,
        ((simulate acq pm dr vm vest r price).get ⟨0, h0⟩).cum_users
          = ((simulate acq pm dr vm vest r price).get ⟨0, h0⟩).new_users)
    ∧ ∀ (i : ℕ) (h : i + 1 < (simulate acq pm dr vm vest r price).length),
        ((simulate acq pm dr vm vest r price).get ⟨i + 1, h⟩).cum_users
          = ((simulate acq pm dr vm vest r price).get ⟨i + 1, h⟩).new_users
            + r * ((simulate acq pm dr vm vest r price).get
                ⟨i, Nat.lt_of_succ_lt h⟩).cum_users := by
  have hperm : (sortByYear acq).Perm acq := List.perm_insertionSort yearLE acq
  have hmy : (simulate acq pm dr vm vest r price).map Row.year
      = (sortByYear acq).map Prod.fst := simulateRows_map_year (sortByYear acq) 0 0
  have hlen : (simulate acq pm dr vm vest r price).length = acq.length := by
    show (simulateRows pm dr vm vest r price 0 0 (sortByYear acq)).length = acq.length
    rw [simulateRows_length]
    simp [sortByYear]
  refine ⟨?_, hlen, ?_, ?_, ?_, ?_, ?_⟩
  · intro hnil
    rw [hnil] at hlen
    exact hne (List.eq_nil_of_length_eq_zero hlen.symm)
  · rw [hmy]
    exact hperm.map Prod.fst
  · rw [hmy]
    exact ((hperm.map Prod.fst).nodup_iff).mpr hnd
  · rw [hmy]
    have hs : List.Sorted yearLE (sortByYear acq) := List.sorted_insertionSort yearLE acq
    exact List.Pairwise.map Prod.fst (fun a b hab => hab) hs
  · intro h0
    have := simulateRows_get_cum_zero (sortByYear acq) 0 0 h0
    simpa using this
  · intro i h
    have := simulateRows_get_cum_succ (sortByYear acq) 0 0 i h
    simpa [mul_comm] using this

/-- Witness for C1 at the concrete unsorted schedule `{2: 10, 1: 5}`. -/
theorem claim_C1_witness :
    ([((2 : Int), (10 : ℚ)), (1, 5)] ≠ ([] : List (Int × ℚ)))
    ∧ ([((2 : Int), (10 : ℚ)), (1, 5)].map Prod.fst).Nodup
    ∧ (simulate [(2, 10), (1, 5)] 1 1 1 [] (9/10) 1 ≠ []
      ∧ (simulate [(2, 10), (1, 5)] 1 1 1 [] (9/10) 1).length
          = ([((2 : Int), (10 : ℚ)), (1, 5)]).length
      ∧ ((simulate [(2, 10), (1, 5)] 1 1 1 [] (9/10) 1).map Row.year).Perm
          ([((2 : Int), (10 : ℚ)), (1, 5)].map Prod.fst)
      ∧ ((simulate [(2, 10), (1, 5)] 1 1 1 [] (9/10) 1).map Row.year).Nodup
      ∧ List.Sorted (· ≤ ·) ((simulate [(2, 10), (1, 5)] 1 1 1 [] (9/10) 1).map Row.year)
      ∧ (∀ h0 : 0 < (simulate [(2, 10), (1, 5)] 1 1 1 [] (9/10) 1).length,
          ((simulate [(2, 10), (1, 5)] 1 1 1 [] (9/10) 1).get ⟨0, h0⟩).cum_users
            = ((simulate [(2, 10), (1, 5)] 1 1 1 [] (9/10) 1).get ⟨0, h0⟩).new_users)
      ∧ ∀ (i : ℕ) (h : i + 1 < (simulate [(2, 10), (1, 5)] 1 1 1 [] (9/10) 1).length),
          ((simulate [(2, 10), (1, 5)] 1 1 1 [] (9/10) 1).get ⟨i + 1, h⟩).cum_users
            = ((simulate [(2, 10), (1, 5)] 1 1 1 [] (9/10) 1).get ⟨i + 1, h⟩).new_users
              + (9/10) * ((simulate [(2, 10), (1, 5)] 1 1 1 [] (9/10) 1).get
                  ⟨i, Nat.lt_of_succ_lt h⟩).cum_users) :=
  ⟨by simp, by decide, claim_C1 [(2, 10), (1, 5)] 1 1 1 [] (9/10) 1 (by simp) (by decide)⟩

/-- C2: on the Conservative-style scenario `{1: 25000, 2: 37500, 3: 50000}` with
`price_monthly = 15`, `device_revenue = 200`, `valuation_multiple = 8`,
`retain_rate = 0.90`, `vesting = {1: 0.50, 2: 0.25, 3: 0.15}` (for any share
price the shares are derived from), the year-1 row has `cum_users = 25000`,
`one_time_rev = 5000000`, `arr = 4500000`, and the year-2 row has
`cum_users = 37500 + 0.9 * 25000 = 60000` (the year-3 values continue the
chain). -/
theorem claim_C2 (price : ℚ) :
    (simulate [(1, 25000), (2, 37500), (3, 50000)] 15 200 8
        [(1, 1/2), (2, 1/4), (3, 3/20)] (9/10) price).map
      (fun row => (row.year, row.cum_users, row.one_time_rev, row.arr))
      = [(1, 25000, 5000000, 4500000), (2, 60000, 7500000, 10800000),
          (3, 104000, 10000000, 18720000)] := by
  norm_num [simulate, simulateRows, rowOf, sortByYear, List.insertionSort,
    List.orderedInsert, yearLE]

/-- C3: every row's `market_cap_usd` is the baseline `MARKET_CAP_USD` plus the
prefix sum of `value_added` over rows 0..i in row order, and its
`share_price_usd` is `market_cap_usd / SHARES_OUT`. -/
theorem claim_C3 (acq : List (Int × ℚ)) (pm dr vm : ℚ) (vest : List (Int × ℚ)) (r price : ℚ)
    (i : ℕ) (h : i < (simulate acq pm dr vm vest r price).length) :
    ((simulate acq pm dr vm vest r price).get ⟨i, h⟩).market_cap_usd
      = MARKET_CAP_USD
        + (((simulate acq pm dr vm vest r price).map Row.value_added).take (i + 1)).sum
    ∧ ((simulate acq pm dr vm vest r price).get ⟨i, h⟩).share_price_usd
      = ((simulate acq pm dr vm vest r price).get ⟨i, h⟩).market_cap_usd
          / SHARES_OUT price := by
  have hmem := List.get_mem (simulate acq pm dr vm vest r price) i h
  have hrow := simulateRows_mem (sortByYear acq) 0 0 _ hmem
  have hcv : ((simulate acq pm dr vm vest r price).get ⟨i, h⟩).cum_val_added
      = 0 + (((simulate acq pm dr vm vest r price).map Row.value_added).take (i + 1)).sum :=
    simulateRows_get_cum_val (sortByYear acq) 0 0 i h
  refine ⟨?_, hrow.2.1⟩
  rw [hrow.1, hcv]
  ring

/-- Witness for C3 at the one-row schedule `{1: 5}`, index 0. -/
theorem claim_C3_witness :
    0 < (simulate [(1, 5)] 1 1 1 [] 1 1).length
    ∧ (((simulate [(1, 5)] 1 1 1 [] 1 1).get ⟨0, by decide⟩).market_cap_usd
        = MARKET_CAP_USD
          + (((simulate [(1, 5)] 1 1 1 [] 1 1).map Row.value_added).take 1).sum
      ∧ ((simulate [(1, 5)] 1 1 1 [] 1 1).get ⟨0, by decide⟩).share_price_usd
        = ((simulate [(1, 5)] 1 1 1 [] 1 1).get ⟨0, by decide⟩).market_cap_usd
            / SHARES_OUT 1) :=
  ⟨by decide, claim_C3 [(1, 5)] 1 1 1 [] 1 1 0 (by decide)⟩

/-- C4: with `retain_rate = 1` every row's `cum_users` is the plain cumulative
sum of `new_users` over rows 0..i in row order. -/
theorem claim_C4 (acq : List (Int × ℚ)) (pm dr vm : ℚ) (vest : List (Int × ℚ)) (price : ℚ)
    (i : ℕ) (h : i < (simulate acq pm dr vm vest 1 price).length) :
    ((simulate acq pm dr vm vest 1 price).get ⟨i, h⟩).cum_users
      = (((simulate acq pm dr vm vest 1 price).map Row.new_users).take (i + 1)).sum := by
  have hc : ((simulate acq pm dr vm vest 1 price).get ⟨i, h⟩).cum_users
      = 0 + (((simulate acq pm dr vm vest 1 price).map Row.new_users).take (i + 1)).sum :=
    simulateRows_get_cum_one (sortByYear acq) 0 0 i h
  rw [hc]
  ring

/-- Witness for C4 at `{1: 2, 2: 3}`, index 1: `cum_users = 2 + 3`. -/
theorem claim_C4_witness :
    1 < (simulate [(1, 2), (2, 3)] 1 1 1 [] 1 1).length
    ∧ ((simulate [(1, 2), (2, 3)] 1 1 1 [] 1 1).get ⟨1, by decide⟩).cum_users
      = (((simulate [(1, 2), (2, 3)] 1 1 1 [] 1 1).map Row.new_users).take 2).sum :=
  ⟨by decide, claim_C4 [(1, 2), (2, 3)] 1 1 1 [] 1 1 (by decide)⟩

/-- C5: with `retain_rate = 0` every row's `cum_users` equals that row's
`new_users` (no carry-forward from earlier rows). -/
theorem claim_C5 (acq : List (Int × ℚ)) (pm dr vm : ℚ) (vest : List (Int × ℚ)) (price : ℚ)
    (i : ℕ) (h : i < (simulate acq pm dr vm vest 0 price).length) :
    ((simulate acq pm dr vm vest 0 price).get ⟨i, h⟩).cum_users
      = ((simulate acq pm dr vm vest 0 price).get ⟨i, h⟩).new_users :=
  simulateRows_get_cum_zero_retain (sortByYear acq) 0 0 i h

/-- Witness for C5 at `{1: 5, 2: 7}`, index 1: `cum_users = new_users = 7`. -/
theorem claim_C5_witness :
    1 < (simulate [(1, 5), (2, 7)] 1 1 1 [] 0 1).length
    ∧ ((simulate [(1, 5), (2, 7)] 1 1 1 [] 0 1).get ⟨1, by decide⟩).cum_users
      = ((simulate [(1, 5), (2, 7)] 1 1 1 [] 0 1).get ⟨1, by decide⟩).new_users :=
  ⟨by decide, claim_C5 [(1, 5), (2, 7)] 1 1 1 [] 1 1 (by decide)⟩

/-- C6 counterexample: with `retain_rate = 0 ≥ 0` and all `new_users ≥ 0`
(schedule `{1: 5, 2: 0}`), the `cum_users` column is `[5, 0]`, which is not
non-decreasing — so non-negative `retain_rate` and `new_users` do not make
`cum_users` non-decreasing. -/
theorem claim_C6_counterexample :
    (0 : ℚ) ≤ 0
    ∧ (∀ p ∈ [((1 : Int), (5 : ℚ)), (2, 0)], 0 ≤ p.2)
    ∧ ¬ List.Chain' (· ≤ ·)
        ((simulate [(1, 5), (2, 0)] 1 1 1 [] 0 1).map Row.cum_users) := by
  refine ⟨le_rfl, ?_, ?_⟩
  · intro p hp
    rcases List.mem_cons.mp hp with h1 | h2
    · rw [h1]; norm_num
    · rw [List.mem_singleton.mp h2]
  · norm_num [simulate, simulateRows, rowOf, sortByYear, List.insertionSort,
      List.orderedInsert, yearLE]

/-- C6 (amended): the engine does not clamp, so non-negative inputs alone do
not suffice; `cum_users` is non-decreasing from each row to the next whenever
all `new_users` values are ≥ 0 and `retain_rate ≥ 1` (for `0 ≤ retain_rate < 1`
the column can decrease, as the counterexample shows). -/
theorem claim_C6_amended (acq : List (Int × ℚ)) (pm dr vm : ℚ) (vest : List (Int × ℚ))
    (r price : ℚ) (hr : 1 ≤ r) (hnn : ∀ p ∈ acq, 0 ≤ p.2) :
    List.Chain' (· ≤ ·) ((simulate acq pm dr vm vest r price).map Row.cum_users) := by
  have hchain : List.Chain (· ≤ ·) 0
      ((simulate acq pm dr vm vest r price).map Row.cum_users) :=
    simulateRows_cum_chain (sortByYear acq) 0 0 le_rfl hr
      (fun p hp => hnn p (by simpa [sortByYear] using hp))
  cases hcol : (simulate acq pm dr vm vest r price).map Row.cum_users with
  | nil => simp
  | cons x xs =>
    rw [hcol] at hchain
    exact (List.chain_cons.mp hchain).2

/-- Witness for the amended C6 at `{1: 5, 2: 0}` with `retain_rate = 1`. -/
theorem claim_C6_witness :
    (1 : ℚ) ≤ 1
    ∧ (∀ p ∈ [((1 : Int), (5 : ℚ)), (2, 0)], 0 ≤ p.2)
    ∧ List.Chain' (· ≤ ·)
        ((simulate [(1, 5), (2, 0)] 1 1 1 [] 1 1).map Row.cum_users) :=
  ⟨le_rfl,
    fun p hp => by
      rcases List.mem_cons.mp hp with h1 | h2
      · rw [h1]; norm_num
      · rw [List.mem_singleton.mp h2],
    claim_C6_amended [(1, 5), (2, 0)] 1 1 1 [] 1 1 le_rfl
      (fun p hp => by
        rcases List.mem_cons.mp hp with h1 | h2
        · rw [h1]; norm_num
        · rw [List.mem_singleton.mp h2])⟩

/-- C7 counterexample: for the acquisitions mapping `{1: -5}` with a negative
user count, `simulate` raises nothing and returns a fully computed one-row
table (here with `new_users = -5` and `one_time_rev = -5 * 200 = -1000`),
contradicting the claim that an InvalidInput error is signalled and no table
returned. -/
theorem claim_C7_counterexample :
    (simulate [(1, -5)] 15 200 8 [] (9/10) 1).map
        (fun row => (row.year, row.new_users, row.one_time_rev))
      = [(1, -5, -1000)] := by
  norm_num [simulate, simulateRows, rowOf, sortByYear, List.insertionSort,
    List.orderedInsert, yearLE]

/-- C7 (amended): the engine performs no input validation: for every
acquisitions mapping, including ones with negative user counts, `simulate`
returns a complete table with exactly one computed row per entry and signals
no error. -/
theorem claim_C7_amended (acq : List (Int × ℚ)) (pm dr vm : ℚ) (vest : List (Int × ℚ))
    (r price : ℚ) :
    (simulate acq pm dr vm vest r price).length = acq.length := by
  show (simulateRows pm dr vm vest r price 0 0 (sortByYear acq)).length = acq.length
  rw [simulateRows_length]
  simp [sortByYear]

/-- C8: an empty acquisitions mapping yields a zero-row table and no error. -/
theorem claim_C8 (pm dr vm : ℚ) (vest : List (Int × ℚ)) (r price : ℚ) :
    simulate [] pm dr vm vest r price = [] := rfl

/-- C9: every row whose year is absent from the vesting mapping has
`vested_pct = 0` and `equity_value = 0`, and no error is raised. -/
theorem claim_C9 (acq : List (Int × ℚ)) (pm dr vm : ℚ) (vest : List (Int × ℚ)) (r price : ℚ)
    (i : ℕ) (h : i < (simulate acq pm dr vm vest r price).length)
    (habs : vest.lookup ((simulate acq pm dr vm vest r price).get ⟨i, h⟩).year = none) :
    ((simulate acq pm dr vm vest r price).get ⟨i, h⟩).vested_pct = 0
    ∧ ((simulate acq pm dr vm vest r price).get ⟨i, h⟩).equity_value = 0 := by
  have hmem := List.get_mem (simulate acq pm dr vm vest r price) i h
  have hrow := simulateRows_mem (sortByYear acq) 0 0 _ hmem
  have hv : ((simulate acq pm dr vm vest r price).get ⟨i, h⟩).vested_pct = 0 := by
    rw [hrow.2.2.1, habs]
    rfl
  refine ⟨hv, ?_⟩
  rw [hrow.2.2.2, hv, mul_zero]

/-- Witness for C9 at the schedule `{5: 10}` with vesting `{1: 0.5}`: year 5
is absent from the vesting mapping. -/
theorem claim_C9_witness :
    List.lookup ((simulate [((5 : Int), (10 : ℚ))] 1 1 1 [(1, 1/2)] (9/10) 1).get
        ⟨0, by decide⟩).year [((1 : Int), (1/2 : ℚ))] = none
    ∧ (((simulate [((5 : Int), (10 : ℚ))] 1 1 1 [(1, 1/2)] (9/10) 1).get
          ⟨0, by decide⟩).vested_pct = 0
      ∧ ((simulate [((5 : Int), (10 : ℚ))] 1 1 1 [(1, 1/2)] (9/10) 1).get
          ⟨0, by decide⟩).equity_value = 0) :=
  ⟨rfl, claim_C9 [(5, 10)] 1 1 1 [(1, 1/2)] (9/10) 1 0 (by decide) rfl⟩

/-- C10 counterexample: with the code's baseline `MARKET_CAP_USD = 20490000`
(non-negative) and the positive price 7, the derived share count
`SHARES_OUT 7 = ⌊20490000 / 7⌋ = 2927142` differs from the exact real quotient
`20490000 / 7`, so the derivation is not exact division. -/
theorem claim_C10_counterexample :
    (0 : ℚ) ≤ MARKET_CAP_USD ∧ (0 : ℚ) < 7
    ∧ SHARES_OUT 7 ≠ MARKET_CAP_USD / 7 := by
  refine ⟨by norm_num [MARKET_CAP_USD], by norm_num, ?_⟩
  norm_num [SHARES_OUT, floorDiv, MARKET_CAP_USD]

/-- C10 (amended): the derivation uses Python floor division
(`SHARES_OUT = MARKET_CAP_USD // price`), so for every non-negative baseline
and positive price the derived value is the floor of the exact quotient: it is
at most `market_cap_baseline / price` and within less than 1 below it (equal
only when the quotient is an integer). -/
theorem claim_C10_amended (cap p : ℚ) (_hcap : 0 ≤ cap) (_hp : 0 < p) :
    floorDiv cap p ≤ cap / p ∧ cap / p < floorDiv cap p + 1 := by
  unfold floorDiv
  constructor
  · exact_mod_cast Int.floor_le (cap / p)
  · have := Int.lt_floor_add_one (cap / p)
    push_cast at this ⊢
    linarith

/-- Witness for the amended C10 at baseline 3 and price 2:
`⌊3/2⌋ = 1 ≤ 3/2 < 2`. -/
theorem claim_C10_witness :
    (0 : ℚ) ≤ 3 ∧ (0 : ℚ) < 2
    ∧ (floorDiv 3 2 ≤ (3 : ℚ) / 2 ∧ (3 : ℚ) / 2 < floorDiv 3 2 + 1) :=
  ⟨by norm_num, by norm_num, claim_C10_amended 3 2 (by norm_num) (by norm_num)⟩

end Payout
